import Mathlib

/-!
Shallow embedding of the notion-cms rendering worker (src/worker.ts).

The worker ingests Notion webhook events, gates them on a publish-state
decision, and renders a page's block tree to HTML.  Pure functions of the
source are translated to Lean functions; the external Notion API and the
KV stores are passed in as explicit environments.  JavaScript `undefined`
and `null` become `Option`, and JS falsy-string checks (`!s`, `s || d`)
are translated with explicit empty-string tests.
-/

/-- Payload of a text rich-text run: `item.text.content`. -/
structure TextPayload where
  content : String
deriving DecidableEq, Repr

/-- The five style flags read by the worker, plus a list of unrecognized
flags (`extra`) that the source never reads. -/
structure Annotations where
  bold : Bool := false
  italic : Bool := false
  strikethrough : Bool := false
  underline : Bool := false
  code : Bool := false
  extra : List (String × Bool) := []
deriving DecidableEq, Repr

/-- One rich-text run, as accessed by the worker: `item.type`,
`item.text?.content`, `item.annotations`, `item.href`. -/
structure RichTextItem where
  type : String
  text : Option TextPayload := none
  annotations : Option Annotations := none
  href : Option String := none
deriving DecidableEq, Repr

/-- `extractTextContent`: concatenate `item.text?.content || ""` over the
runs of type "text"; other run kinds contribute the empty string. -/
def extractTextContent (richText : List RichTextItem) : String :=
  String.join (richText.map (fun item =>
    if item.type = "text" then
      match item.text with
      | some t => t.content
      | none => ""
    else ""))

/-- `richTextToHtml`: render each text run, wrapping in this order:
code, bold, italic, strikethrough, underline, then hyperlink.
JS `if (item.href)` treats the empty string as absent. -/
def richTextToHtml (richText : List RichTextItem) : String :=
  String.join (richText.map (fun item =>
    if item.type = "text" then
      let text0 := match item.text with
        | some t => t.content
        | none => ""
      let ann := item.annotations.getD ({} : Annotations)
      let t1 := if ann.code then "<code>" ++ text0 ++ "</code>" else text0
      let t2 := if ann.bold then "<strong>" ++ t1 ++ "</strong>" else t1
      let t3 := if ann.italic then "<em>" ++ t2 ++ "</em>" else t2
      let t4 := if ann.strikethrough then "<s>" ++ t3 ++ "</s>" else t3
      let t5 := if ann.underline then "<u>" ++ t4 ++ "</u>" else t4
      match item.href with
      | some h => if h = "" then t5 else "<a href=\"" ++ h ++ "\">" ++ t5 ++ "</a>"
      | none => t5
    else ""))

/-- JS `x || null` on an optional string: empty string collapses to null. -/
def jsOrNull (s : Option String) : Option String :=
  match s with
  | some u => if u = "" then none else some u
  | none => none

/-- Media payload of an image/video block (`block.image` / `block.video`):
its `type` tag, `external?.url`, `file?.url`, and `caption || []`. -/
structure MediaPayload where
  mtype : String := ""
  external_url : Option String := none
  file_url : Option String := none
  caption : List RichTextItem := []
deriving DecidableEq, Repr

/-- A raw Notion block as the worker reads it.  `rich_text` stands for
`block[block.type]?.rich_text` (the payload keyed by the block's own type,
which is the only payload the worker ever reads); `code_language` for
`block.code?.language`; `media` for `block.image` / `block.video`. -/
structure RawBlock where
  id : String := ""
  type : String := ""
  has_children : Bool := false
  rich_text : Option (List RichTextItem) := none
  code_language : Option String := none
  media : Option MediaPayload := none
deriving DecidableEq, Repr

/-- `extractMediaUrl`: resolve `external?.url || null` or `file?.url || null`
depending on the payload's own type tag. -/
def extractMediaUrl (block : RawBlock) : Option String :=
  if block.type = "image" ∨ block.type = "video" then
    match block.media with
    | some m =>
      if m.mtype = "external" then jsOrNull m.external_url
      else if m.mtype = "file" then jsOrNull m.file_url
      else none
    | none => none
  else none

/-- List-prefix test on character lists. -/
def listStartsWith : List Char → List Char → Bool
  | [], _ => true
  | _ :: _, [] => false
  | a :: as, b :: bs => a == b && listStartsWith as bs

/-- Substring occurrence test (JS `String.prototype.includes`). -/
def listHasInfix (pat : List Char) : List Char → Bool
  | [] => pat.isEmpty
  | c :: rest => listStartsWith pat (c :: rest) || listHasInfix pat rest

/-- JS `s.includes(pat)`. -/
def strIncludes (s pat : String) : Bool :=
  listHasInfix pat.toList s.toList

/-- `isYouTubeUrl`. -/
def isYouTubeUrl (url : String) : Bool :=
  strIncludes url ("youtube.com") || strIncludes url ("youtu.be")

/-- Characters that terminate the captured video id in the source regex. -/
def ytStopChar (c : Char) : Bool :=
  c == '&' || c == '\n' || c == '?' || c == '#'

/-- Left-to-right scan for the source regex
`(?:youtube.com\/watch?v=|youtu.be\/)([^&\n?#]+)`: at each position try
either literal alternative, then capture one or more non-stop characters. -/
def ytScan : List Char → Option (List Char)
  | [] => none
  | c :: rest =>
    let here := c :: rest
    let p1 := ("youtube.com/watch?v=").toList
    let p2 := ("youtu.be/").toList
    if listStartsWith p1 here then
      let idc := (here.drop p1.length).takeWhile (fun ch => !(ytStopChar ch))
      if idc.isEmpty then ytScan rest else some idc
    else if listStartsWith p2 here then
      let idc := (here.drop p2.length).takeWhile (fun ch => !(ytStopChar ch))
      if idc.isEmpty then ytScan rest else some idc
    else ytScan rest

/-- `getYouTubeEmbedUrl`: rewrite a recognized watch URL to an embed URL,
otherwise return the input unchanged. -/
def getYouTubeEmbedUrl (url : String) : String :=
  match ytScan url.toList with
  | some idc => "https://www.youtube.com/embed/" ++ String.mk idc
  | none => url

/-- `ALLOWED_BLOCK_TYPES`. -/
def ALLOWED_BLOCK_TYPES : List String :=
  ["heading_1", "heading_2", "heading_3", "paragraph", "quote", "image",
   "video", "bulleted_list_item", "numbered_list_item", "divider", "code"]

/-- A processed block: id, kind, extracted plain-text content (nullable),
recursively processed children (nullable), and this block's own HTML. -/
inductive ProcessedBlock where
  | mk (blockID : String) (type : String) (content : Option String)
       (children : Option (List ProcessedBlock)) (html : String)

instance : Inhabited ProcessedBlock :=
  ⟨ProcessedBlock.mk "" "" none none ""⟩

def ProcessedBlock.blockID : ProcessedBlock → String
  | .mk i _ _ _ _ => i

def ProcessedBlock.type : ProcessedBlock → String
  | .mk _ t _ _ _ => t

def ProcessedBlock.content : ProcessedBlock → Option String
  | .mk _ _ c _ _ => c

def ProcessedBlock.children : ProcessedBlock → Option (List ProcessedBlock)
  | .mk _ _ _ ch _ => ch

def ProcessedBlock.html : ProcessedBlock → String
  | .mk _ _ _ _ h => h

/-- `children.map((child) => child.html).join("")`. -/
def childrenHtmlJoin (cs : List ProcessedBlock) : String :=
  String.join (cs.map ProcessedBlock.html)

/-- `generateBlockHtml`: per-kind HTML for one block, given its already
processed children (null by default in the source). -/
def generateBlockHtml (block : RawBlock)
    (children : Option (List ProcessedBlock) := none) : String :=
  if block.type = "heading_1" then
    "<h1>" ++ richTextToHtml (block.rich_text.getD []) ++ "</h1>"
  else if block.type = "heading_2" then
    "<h2>" ++ richTextToHtml (block.rich_text.getD []) ++ "</h2>"
  else if block.type = "heading_3" then
    "<h3>" ++ richTextToHtml (block.rich_text.getD []) ++ "</h3>"
  else if block.type = "paragraph" then
    "<p>" ++ richTextToHtml (block.rich_text.getD []) ++ "</p>"
  else if block.type = "quote" then
    "<blockquote>" ++ richTextToHtml (block.rich_text.getD []) ++ "</blockquote>"
  else if block.type = "code" then
    "<pre><code class=\"" ++ (block.code_language.getD "") ++ "\">" ++
      extractTextContent (block.rich_text.getD []) ++ "</code></pre>"
  else if block.type = "image" then
    match extractMediaUrl block with
    | some url =>
      let caption := richTextToHtml ((block.media.map MediaPayload.caption).getD [])
      if caption = "" then "<img src=\"" ++ url ++ "\" alt=\"\" />"
      else "<img src=\"" ++ url ++ "\" alt=\"" ++ caption ++ "\" />"
    | none => ""
  else if block.type = "video" then
    match extractMediaUrl block with
    | some url =>
      if isYouTubeUrl url then
        "<iframe src=\"" ++ getYouTubeEmbedUrl url ++
          "\" frameborder=\"0\" allowfullscreen></iframe>"
      else "<video src=\"" ++ url ++ "\" controls></video>"
    | none => ""
  else if block.type = "divider" then
    "<hr>"
  else if block.type = "bulleted_list_item" then
    let bulletContent := richTextToHtml (block.rich_text.getD [])
    match children with
    | some (x :: xs) =>
      "<ul><li>" ++ bulletContent ++ childrenHtmlJoin (x :: xs) ++ "</li></ul>"
    | _ => "<ul><li>" ++ bulletContent ++ "</li></ul>"
  else if block.type = "numbered_list_item" then
    let numberedContent := richTextToHtml (block.rich_text.getD [])
    match children with
    | some (x :: xs) =>
      "<ol><li>" ++ numberedContent ++ childrenHtmlJoin (x :: xs) ++ "</li></ol>"
    | _ => "<ol><li>" ++ numberedContent ++ "</li></ol>"
  else ""

/-- `processBlocksRecursively`: walk a fetched block list, skip blocks with
falsy id/type or disallowed kinds, extract per-kind plain-text content, and
for list items below the depth cap fetch and recurse into children.
The Notion client is modeled by `fetchPages`, which yields the full page
sequence available for a block id (or a network error); the source issues a
single non-paginated call here, so only the head page is consumed.  A fetch
error is caught at the node and leaves `children` null. -/
def processBlocksRecursively
    (fetchPages : String → Except Unit (List (List RawBlock)))
    (blocks : List RawBlock)
    (currentDepth : Nat := 0) (maxDepth : Nat := 4) : List ProcessedBlock :=
  match blocks with
  | [] => []
  | block :: rest =>
    if block.id = "" ∨ block.type = "" then
      processBlocksRecursively fetchPages rest currentDepth maxDepth
    else if !(ALLOWED_BLOCK_TYPES.contains block.type) then
      processBlocksRecursively fetchPages rest currentDepth maxDepth
    else
      let cc : Option String × Option (List ProcessedBlock) :=
        if block.type = "heading_1" ∨ block.type = "heading_2" ∨
            block.type = "heading_3" ∨ block.type = "paragraph" ∨
            block.type = "quote" ∨ block.type = "code" then
          (some (extractTextContent (block.rich_text.getD [])), none)
        else if block.type = "image" ∨ block.type = "video" then
          (extractMediaUrl block, none)
        else if block.type = "divider" then
          (none, none)
        else
          -- remaining allowed kinds: bulleted_list_item / numbered_list_item
          let content := some (extractTextContent (block.rich_text.getD []))
          if _h : currentDepth < maxDepth then
            if block.has_children then
              match fetchPages block.id with
              | .ok pages =>
                (content, some (processBlocksRecursively fetchPages
                  (pages.headD []) (currentDepth + 1) maxDepth))
              | .error _ => (content, none)
            else (content, none)
          else (content, none)
      ProcessedBlock.mk block.id block.type cc.1 cc.2
          (generateBlockHtml block cc.2) ::
        processBlocksRecursively fetchPages rest currentDepth maxDepth
termination_by (maxDepth - currentDepth, blocks)
decreasing_by
  all_goals simp_wf
  · apply Prod.Lex.right
    simp [List.cons.sizeOf_spec]
  · apply Prod.Lex.right
    simp [List.cons.sizeOf_spec]
  · apply Prod.Lex.left
    omega
  · apply Prod.Lex.right
    simp [List.cons.sizeOf_spec]

/-- The do-while pagination loop used for the two named sections: request a
page, append its results, and continue while a continuation cursor is
returned.  The cursor is modeled by the suffix of remaining pages — the
stub returns a cursor exactly while further pages remain, so the loop body
runs once per page and stops when the cursor is absent. -/
def fetchAllPages {α : Type} : List (List α) → List α
  | [] => []
  | [p] => p
  | p :: q :: rest => p ++ fetchAllPages (q :: rest)

mutual

/-- Inner `processListItems` of `generateCompleteHtml`: wrap the items of
one run in a single list container of the given tag. -/
def processListItems (blocks : List ProcessedBlock) (listType : String) : String :=
  "<" ++ listType ++ ">" ++ listItemsJoin blocks ++ "</" ++ listType ++ ">"

/-- `listItems.join("")` over the per-item fragments. -/
def listItemsJoin : List ProcessedBlock → String
  | [] => ""
  | item :: rest => "<li>" ++ listItemContent item ++ "</li>" ++ listItemsJoin rest

/-- Per-item content: `item.content || ""`, then — when children exist —
the recursive rendering of all children in one nested container whose tag
is chosen by the first child's kind. -/
def listItemContent : ProcessedBlock → String
  | .mk _ _ content children _ =>
    match children with
    | some (c :: cs) =>
      (content.getD "") ++
        processListItems (c :: cs)
          (if c.type = "bulleted_list_item" then "ul" else "ol")
    | _ => content.getD ""

end

/-- Split off the maximal leading run of blocks of kind `t`
(the inner `while` of `generateCompleteHtml` collecting `consecutiveItems`). -/
def listRunSplit (t : String) : List ProcessedBlock →
    List ProcessedBlock × List ProcessedBlock
  | [] => ([], [])
  | b :: rest =>
    if b.type = t then
      let s := listRunSplit t rest
      (b :: s.1, s.2)
    else ([], b :: rest)

theorem listRunSplit_snd_length (t : String) :
    ∀ l : List ProcessedBlock, (listRunSplit t l).2.length ≤ l.length := by
  intro l
  induction l with
  | nil => simp [listRunSplit]
  | cons b rest ih =>
    simp only [listRunSplit]
    by_cases h : b.type = t
    · simp only [if_pos h]
      exact Nat.le_succ_of_le ih
    · simp [if_neg h]

/-- The scanning loop of `generateCompleteHtml`, producing the `result`
array: consume each maximal run of same-kind list items into one rendered
list container, and emit every other block's own html in place. -/
def generateCompleteHtmlGo : List ProcessedBlock → List String
  | [] => []
  | b :: rest =>
    if b.type = "bulleted_list_item" then
      let s := listRunSplit "bulleted_list_item" (b :: rest)
      processListItems s.1 "ul" :: generateCompleteHtmlGo s.2
    else if b.type = "numbered_list_item" then
      let s := listRunSplit "numbered_list_item" (b :: rest)
      processListItems s.1 "ol" :: generateCompleteHtmlGo s.2
    else
      b.html :: generateCompleteHtmlGo rest
termination_by l => l.length
decreasing_by
  all_goals simp_wf
  · simpa [listRunSplit, *] using
      Nat.lt_succ_of_le (listRunSplit_snd_length "bulleted_list_item" rest)
  · simpa [listRunSplit, *] using
      Nat.lt_succ_of_le (listRunSplit_snd_length "numbered_list_item" rest)

/-- `generateCompleteHtml`: `result.join("\n")`. -/
def generateCompleteHtml (processedBlocks : List ProcessedBlock) : String :=
  String.intercalate "\n" (generateCompleteHtmlGo processedBlocks)

/-- Five distinct ignore branches of the inline gating sequence, one per
early-return response of the worker. -/
inductive IgnoreReason where
  | emptyStatus
  | publishedControlled
  | unseenPage
  | draftDemotion
  | unrecognizedStatus
deriving DecidableEq, Repr

/-- Outcome of the publish-state gating. -/
inductive GateAction where
  | ignore (reason : IgnoreReason)
  | proceed
deriving DecidableEq, Repr

/-- `notionMapping.statusProperty`. -/
structure StatusProperty where
  id : String
  draft : String
  published : String
  republish : String
deriving DecidableEq, Repr

/-- `notionMapping.parentBlocks`. -/
structure ParentBlocks where
  schemas : String
  blogCopy : String
deriving DecidableEq, Repr

/-- `NotionMapping`. -/
structure NotionMapping where
  statusProperty : StatusProperty
  parentBlocks : ParentBlocks
deriving DecidableEq, Repr

namespace Gating

/-- The inline publish-state decision sequence of the worker (the ordered
early returns on `statusValue`), as a pure function.  `statusValue` is
`pageStatusProperty.status?.name`; JS `if (!statusValue)` treats both a
missing and an empty name as absent. -/
def decide (pageExists : Bool) (statusValue : Option String)
    (m : StatusProperty) : GateAction :=
  match statusValue with
  | none => .ignore .emptyStatus
  | some s =>
    if s = "" then .ignore .emptyStatus
    else if s = m.published then .ignore .publishedControlled
    else if !pageExists && (s == m.republish || s == m.published) then
      .ignore .unseenPage
    else if pageExists && s == m.draft then .ignore .draftDemotion
    else if !([m.draft, m.published, m.republish].contains s) then
      .ignore .unrecognizedStatus
    else .proceed

end Gating

/-- Lowercase hexadecimal digit, as produced by JS `Number.toString(16)`. -/
def hexDigitChar (n : Nat) : Char :=
  if n < 10 then Char.ofNat (48 + n) else Char.ofNat (87 + n)

/-- `b.toString(16).padStart(2, "0")` for a byte value. -/
def byteToHex (b : Nat) : String :=
  String.mk [hexDigitChar (b / 16), hexDigitChar (b % 16)]

/-- `Array.from(bytes).map(hex).join("")`. -/
def bytesToHex (bs : List Nat) : String :=
  String.join (bs.map byteToHex)

/-- `new TextEncoder().encode(s)`: the UTF-8 bytes of a string. -/
def utf8Bytes (s : String) : List Nat :=
  s.toUTF8.toList.map (fun b => b.toNat)

/-- `validateWebhookSignature`, with the Web Crypto HMAC-SHA-256 primitive
passed in as `hmacSha256 key message` over byte sequences: format the mac
as a lowercase hex digest tagged `sha256=` and compare it to the presented
header by string equality. -/
def validateWebhookSignature (hmacSha256 : List Nat → List Nat → List Nat)
    (body notionSignature verificationToken : String) : Bool :=
  let calculatedSignature :=
    "sha256=" ++
      bytesToHex (hmacSha256 (utf8Bytes verificationToken) (utf8Bytes body))
  calculatedSignature == notionSignature

/-- `UserData` as stored in the users KV namespace (the JSON parse of the
stored string is abstracted: the store yields structured records). -/
structure UserData where
  verificationSecret : String
  notionToken : String
  webhookUrl : Option String := none
  notionMapping : Option NotionMapping := none

/-- `payload.entity`. -/
structure WebhookEntity where
  type : String
  id : String
deriving DecidableEq, Repr

/-- `NotionWebhookPayload` (the fields the worker reads). -/
structure NotionWebhookPayload where
  type : String
  entity : Option WebhookEntity := none
deriving DecidableEq, Repr

/-- Result of `notion.pages.properties.retrieve`: its `type` tag and
`status?.name`. -/
structure StatusPropResponse where
  type : String
  statusName : Option String := none
deriving DecidableEq, Repr

/-- The external collaborators of the worker: JSON parsing of the raw body
and the Notion client.  `childPages b` is the full page sequence the API
can serve for `blocks.children.list` on block `b` (a single call consumes
the head page; the section loops consume all of them); an `error` models a
thrown network failure. -/
structure NotionApi where
  parsePayload : String → Except Unit NotionWebhookPayload
  retrieveProperty : String → String → Except Unit StatusPropResponse
  childPages : String → Except Unit (List (List RawBlock))

/-- JSON response body: `success` plus the optional fields the worker
emits. -/
structure JsonBody where
  success : Bool
  message : Option String := none
  error : Option String := none
  userId : Option String := none
  pageId : Option String := none
  status : Option String := none
  pageExists : Option Bool := none
  blocksCount : Option Nat := none
  processedBlocks : Option (List ProcessedBlock) := none
  completeHtml : Option String := none

/-- A worker response: the one plain-text response (405) or a JSON one. -/
inductive HttpResponse where
  | plain (status : Nat) (body : String)
  | json (status : Nat) (body : JsonBody)

/-- A `success: true` JSON response carrying only a message. -/
def jsonMsg (status : Nat) (msg : String) : HttpResponse :=
  .json status { success := true, message := some msg }

/-- A `success: false` JSON response carrying only an error. -/
def jsonErr (status : Nat) (e : String) : HttpResponse :=
  .json status { success := false, error := some e }

/-- JS `String.prototype.split` with the one-character separator "/" used
on `url.pathname`: splits at every separator occurrence, keeping empty
pieces (they are dropped by the `filter(Boolean)` that follows). -/
def splitCharOn (sep : Char) : List Char → List Char → List String
  | [], acc => [String.mk acc.reverse]
  | c :: rest, acc =>
    if c == sep then String.mk acc.reverse :: splitCharOn sep rest []
    else splitCharOn sep rest (c :: acc)

/-- `url.pathname.split("/")`. -/
def splitPath (pathname : String) : List String :=
  splitCharOn '/' pathname.toList []

/-- An inbound request: method, URL pathname, the `X-Notion-Signature`
header, and the raw body text. -/
structure WorkerRequest where
  method : String
  pathname : String
  signatureHeader : Option String := none
  body : String := ""

/-- `(block.heading_1.rich_text[0] as TextRichTextItemResponse).text.content`
— an unguarded access chain: a missing payload, an empty run list, or a
non-text first run throws (caught by the inner try as a 500). -/
def firstHeadingText (b : RawBlock) : Except Unit String :=
  match b.rich_text with
  | some (r :: _) =>
    match r.text with
    | some t => .ok t.content
    | none => .error ()
  | _ => .error ()

/-- The `filter`/`reduce` over the page's top-level blocks building the
record keyed by heading text: for each `heading_1` block whose first run's
text equals one of the two section names, the block overwrites the slot for
that name (later blocks win, as in the keyed `reduce`).  The text access
runs for every `heading_1` block, so it can throw even for headings that
match neither name. -/
def scanSectionsGo (schemas blogCopy : String) :
    List RawBlock → Option RawBlock → Option RawBlock →
    Except Unit (Option RawBlock × Option RawBlock)
  | [], sSlot, bSlot => .ok (sSlot, bSlot)
  | b :: rest, sSlot, bSlot =>
    if b.type = "heading_1" then
      match firstHeadingText b with
      | .error e => .error e
      | .ok c =>
        scanSectionsGo schemas blogCopy rest
          (if c = schemas then some b else sSlot)
          (if c = blogCopy then some b else bSlot)
    else scanSectionsGo schemas blogCopy rest sSlot bSlot

/-- Response message for each gating branch (the unrecognized branch
interpolates the status value). -/
def ignoreMessage : IgnoreReason → String → String
  | .emptyStatus, _ => "Status value is empty - ignoring webhook"
  | .publishedControlled, _ =>
    "Status is \x27published\x27 which is worker-controlled - ignoring webhook"
  | .unseenPage, _ =>
    "Cannot set republish/published status on non-existent page - ignoring webhook"
  | .draftDemotion, _ =>
    "Existing page changed to draft status - ignoring webhook"
  | .unrecognizedStatus, s =>
    "Invalid status value \"" ++ s ++ "\" - ignoring webhook"

/-- The inner try of the worker, from the property retrieval to the happy
path: any thrown step surfaces as `error`, which the caller maps to the
500 "Failed to retrieve Notion page" response.  The KV write of the gated
webhook record is elided — it does not affect the response. -/
def processPage (api : NotionApi) (notionMapping : NotionMapping)
    (userId pageId : String) (pageExists : Bool) :
    Except Unit HttpResponse := do
  let prop ← api.retrieveProperty pageId notionMapping.statusProperty.id
  if prop.type ≠ "status" then
    return jsonMsg 200 ("Expected status property but got different type - ignoring webhook")
  let statusValue := prop.statusName
  match Gating.decide pageExists statusValue notionMapping.statusProperty with
  | .ignore r =>
    return jsonMsg 200 (ignoreMessage r (statusValue.getD ""))
  | .proceed =>
    let pageBlocksPages ← api.childPages pageId
    let pageBlocks := pageBlocksPages.headD []
    let slots ← scanSectionsGo notionMapping.parentBlocks.schemas
      notionMapping.parentBlocks.blogCopy pageBlocks none none
    match slots with
    | (some schemasBlock, some blogCopyBlock) =>
      let schemaPages ← api.childPages schemasBlock.id
      let _schemaBlocks := fetchAllPages schemaPages
      let blogPages ← api.childPages blogCopyBlock.id
      let blogCopyBlocks := fetchAllPages blogPages
      let processedBlocks :=
        processBlocksRecursively (fun bid => api.childPages bid) blogCopyBlocks 0 4
      let blogHtml := generateCompleteHtml processedBlocks
      return .json 200 { success := true,
                         message := some ("Webhook processed successfully"),
                         userId := some userId,
                         pageId := some pageId,
                         status := statusValue,
                         pageExists := some pageExists,
                         blocksCount := some pageBlocks.length,
                         processedBlocks := some processedBlocks,
                         completeHtml := some blogHtml }
    | (sSlot, bSlot) =>
      return jsonMsg 200 ("Missing required sections: " ++
        (if bSlot.isNone then "Blog Copy" else "") ++ " " ++
        (if sSlot.isNone then "Schemas" else ""))

/-- The exported `fetch` handler.  The users KV namespace is `users`
(keyed by user id), the webhooks KV namespace key list is `webhookKeys`,
and the HMAC primitive is passed through to the signature check. -/
def handleFetch (api : NotionApi) (users : String → Option UserData)
    (webhookKeys : List String)
    (hmacSha256 : List Nat → List Nat → List Nat)
    (req : WorkerRequest) : HttpResponse :=
  if req.method ≠ "POST" then .plain 405 ("Method not allowed")
  else
    match (splitPath req.pathname).filter (fun p => p ≠ "") with
    | ["notion-webhook", userId] =>
      (match users userId with
      | none => jsonErr 404 ("User not found")
      | some userData =>
        match userData.notionMapping with
        | none => jsonMsg 200 ("No notion mapping configured - ignoring webhook")
        | some notionMapping =>
          match req.signatureHeader with
          | none => jsonErr 400 ("Missing X-Notion-Signature header")
          | some notionSignature =>
            if !(validateWebhookSignature hmacSha256 req.body notionSignature
                userData.verificationSecret) then
              jsonErr 403 ("Invalid signature - webhook not from Notion")
            else
              match api.parsePayload req.body with
              | .error _ => jsonErr 500 ("Failed to process webhook")
              | .ok payload =>
                if payload.type ≠ "page.properties_updated" then
                  jsonMsg 200 ("Webhook received but not relevant type")
                else
                  match payload.entity with
                  | none =>
                    jsonMsg 200 ("Webhook received but entity type is not \x27page\x27")
                  | some entity =>
                    if entity.type ≠ "page" then
                      jsonMsg 200 ("Webhook received but entity type is not \x27page\x27")
                    else
                      let pageId := entity.id
                      let pageExists := 0 < (webhookKeys.filter (fun k =>
                        k.startsWith ("webhook:" ++ userId ++ "-pageId:" ++ pageId))).length
                      match processPage api notionMapping userId pageId pageExists with
                      | .ok resp => resp
                      | .error _ => jsonErr 500 ("Failed to retrieve Notion page"))
    | _ =>
      jsonErr 400 ("Invalid webhook URL format. Expected: /notion-webhook/\x7buserId\x7d")

/-- A concrete status mapping used by witnesses and counterexamples. -/
def mapping0 : StatusProperty :=
  { id := "st", draft := "Draft", published := "Published", republish := "Republish" }

/-- C1.  The gating sequence applies its rules in order with first match
winning: null/empty status → empty-status ignore; status equal to
`mapping.published` → published-is-system-controlled ignore, regardless of
`pageExists`; a non-existing page with status in the republish/published
set → unseen-page ignore; an existing page with the draft status →
draft-demotion ignore; a status outside the three mapped values →
unrecognized ignore; otherwise proceed.  Correction to the claim's final
sentence: an unseen page whose status equals `mapping.published` is
rejected by the earlier published-is-system-controlled rule (rule 2), not
by the unseen-page rule — the last conjunct records this. -/
theorem decide_ordered_rules (e : Bool) (v : String) (m : StatusProperty) :
    (Gating.decide e none m = .ignore .emptyStatus) ∧
    (Gating.decide e (some "") m = .ignore .emptyStatus) ∧
    (v ≠ "" → v = m.published →
      Gating.decide e (some v) m = .ignore .publishedControlled) ∧
    (v ≠ "" → v ≠ m.published → e = false → v = m.republish →
      Gating.decide e (some v) m = .ignore .unseenPage) ∧
    (v ≠ "" → v ≠ m.published → ¬(e = false ∧ (v = m.republish ∨ v = m.published)) →
      e = true → v = m.draft →
      Gating.decide e (some v) m = .ignore .draftDemotion) ∧
    (v ≠ "" → v ≠ m.published → ¬(e = false ∧ (v = m.republish ∨ v = m.published)) →
      ¬(e = true ∧ v = m.draft) →
      ¬(v = m.draft ∨ v = m.published ∨ v = m.republish) →
      Gating.decide e (some v) m = .ignore .unrecognizedStatus) ∧
    (v ≠ "" → v ≠ m.published → ¬(e = false ∧ (v = m.republish ∨ v = m.published)) →
      ¬(e = true ∧ v = m.draft) →
      (v = m.draft ∨ v = m.published ∨ v = m.republish) →
      Gating.decide e (some v) m = .proceed) ∧
    (e = false → v = m.published → v ≠ "" →
      Gating.decide e (some v) m = .ignore .publishedControlled) := by
  refine ⟨rfl, by simp [Gating.decide], ?_, ?_, ?_, ?_, ?_, ?_⟩
  · intro h1 h2
    subst h2
    simp [Gating.decide, h1]
  · intro h1 h2 he hr
    subst hr
    subst he
    simp [Gating.decide, h1, h2]
  · intro h1 h2 _ he hd
    subst hd
    subst he
    simp [Gating.decide, h1, h2]
  · intro h1 h2 h3 h4 h5
    push_neg at h5
    obtain ⟨hd, hp, hr⟩ := h5
    cases e <;> simp [Gating.decide, h1, h2, hd, hr]
  · intro h1 h2 h3 h4 h5
    cases e with
    | false =>
      have hr : v ≠ m.republish := fun hre => h3 ⟨rfl, Or.inl hre⟩
      rcases h5 with hd | hp | hre
      · subst hd
        simp [Gating.decide, h1, h2, hr]
      · exact absurd hp h2
      · exact absurd hre hr
    | true =>
      have hd : v ≠ m.draft := fun hdr => h4 ⟨rfl, hdr⟩
      rcases h5 with hdr | hp | hre
      · exact absurd hdr hd
      · exact absurd hp h2
      · subst hre
        simp [Gating.decide, h1, h2, hd]
  · intro he h2 h1
    subst h2
    simp [Gating.decide, h1]

/-- C1 witness: an unseen page with the republish status is ignored by
the unseen-page rule. -/
theorem decide_ordered_rules_witness :
    Gating.decide false (some ("Republish")) mapping0 = .ignore .unseenPage :=
  (decide_ordered_rules false "Republish" mapping0).2.2.2.1
    (by decide) (by decide) rfl rfl

/-- C1 counterexample: an unseen page whose status equals the configured
published value is rejected by the published-is-system-controlled branch,
not by the unseen-page branch the claim names. -/
theorem decide_unseen_published_counterexample :
    Gating.decide false (some ("Published")) mapping0 = .ignore .publishedControlled ∧
    Gating.decide false (some ("Published")) mapping0 ≠ .ignore .unseenPage := by
  constructor
  · decide
  · decide

/-- The pagination loop yields exactly the concatenation of all pages. -/
theorem fetchAllPages_eq_join {α : Type} (pages : List (List α)) :
    fetchAllPages pages = pages.flatten := by
  induction pages with
  | nil => rfl
  | cons p rest ih =>
    cases rest with
    | nil => simp [fetchAllPages]
    | cons q rs => simpa [fetchAllPages] using ih

/-- A childless paragraph stub block. -/
def pageStub (i : String) : RawBlock := { id := i, type := "paragraph" }

/-- Three pages of two items each, as served for the stub root's children. -/
def pagedPages : List (List RawBlock) :=
  [[pageStub "c1", pageStub "c2"], [pageStub "c3", pageStub "c4"],
   [pageStub "c5", pageStub "c6"]]

/-- A list-item root block whose child listing is paginated. -/
def pagedRoot : RawBlock :=
  { id := "n0", type := "bulleted_list_item", has_children := true }

/-- Child-fetch stub: the root's children come in three pages of two. -/
def pagedFetch : String → Except Unit (List (List RawBlock))
  | "n0" => .ok pagedPages
  | _ => .ok []

/-- C2 (amended).  The two named section fetches run the do-while cursor
loop, which yields exactly the concatenation of all pages in original
order — hence no duplicates when the items are distinct — and does not
stop while a cursor remains; but a recursive child fetch of a list item
issues a single non-paginated request, so it consumes only the first
page of the collection. -/
theorem pagination_spec :
    (∀ (α : Type) (pages : List (List α)), fetchAllPages pages = pages.flatten) ∧
    (∀ (α : Type) (pages : List (List α)),
      pages.flatten.Nodup → (fetchAllPages pages).Nodup) ∧
    (∀ fetch (b : RawBlock) pages cur maxD,
      b.id ≠ "" → b.type = "bulleted_list_item" → b.has_children = true →
      cur < maxD → fetch b.id = .ok pages →
      ((processBlocksRecursively fetch [b] cur maxD).headD default).children =
        some (processBlocksRecursively fetch (pages.headD []) (cur + 1) maxD)) := by
  refine ⟨fun α pages => fetchAllPages_eq_join pages, ?_, ?_⟩
  · intro α pages h
    rw [fetchAllPages_eq_join]
    exact h
  · intro fetch b pages cur maxD hid hty hhc hlt hf
    simp [processBlocksRecursively, hid, hty, hhc, hlt, hf, ALLOWED_BLOCK_TYPES,
      ProcessedBlock.children]

/-- C2 witness: at the stub fixture, the processed children of the root
are the processing of the first page alone. -/
theorem pagination_spec_witness :
    ((processBlocksRecursively pagedFetch [pagedRoot] 0 4).headD default).children =
      some (processBlocksRecursively pagedFetch (pagedPages.headD []) 1 4) :=
  pagination_spec.2.2 pagedFetch pagedRoot pagedPages 0 4
    (by decide) rfl rfl (by decide) rfl

/-- C2 counterexample: a recursive child fetch whose collection has three
pages of two items yields 2 processed children, not the 6 the claim
requires. -/
theorem pagination_recursive_counterexample :
    (((processBlocksRecursively pagedFetch [pagedRoot] 0 4).headD
        default).children.getD []).length = 2 ∧
    ¬((((processBlocksRecursively pagedFetch [pagedRoot] 0 4).headD
        default).children.getD []).length = 6) := by
  have h : (((processBlocksRecursively pagedFetch [pagedRoot] 0 4).headD
      default).children.getD []).length = 2 := by
    simp [processBlocksRecursively, pagedFetch, pagedRoot, pagedPages, pageStub,
      ALLOWED_BLOCK_TYPES, extractTextContent, generateBlockHtml, richTextToHtml,
      ProcessedBlock.children, String.join, childrenHtmlJoin]
  rw [h]
  exact ⟨rfl, by omega⟩

/-- The run/split is a partition: run ++ remainder = input. -/
theorem listRunSplit_append (t : String) :
    ∀ l : List ProcessedBlock, (listRunSplit t l).1 ++ (listRunSplit t l).2 = l := by
  intro l
  induction l with
  | nil => rfl
  | cons b rest ih =>
    by_cases h : b.type = t
    · simp [listRunSplit, h, ih]
    · simp [listRunSplit, h]

/-- Every block of the split-off run has the run's kind. -/
theorem listRunSplit_fst_types (t : String) :
    ∀ l : List ProcessedBlock, ∀ i ∈ (listRunSplit t l).1, i.type = t := by
  intro l
  induction l with
  | nil => simp [listRunSplit]
  | cons b rest ih =>
    by_cases h : b.type = t
    · simp only [listRunSplit, if_pos h]
      intro i hi
      rcases List.mem_cons.mp hi with rfl | hi
      · exact h
      · exact ih i hi
    · simp [listRunSplit, h]

/-- The remainder after a run does not start with the run's kind — the
consumed run is maximal. -/
theorem listRunSplit_snd_head (t : String) :
    ∀ l : List ProcessedBlock, ∀ b' rest',
      (listRunSplit t l).2 = b' :: rest' → b'.type ≠ t := by
  intro l
  induction l with
  | nil => simp [listRunSplit]
  | cons b rest ih =>
    by_cases h : b.type = t
    · simp only [listRunSplit, if_pos h]
      exact ih
    · simp only [listRunSplit, if_neg h]
      intro b' rest' he
      cases he
      exact h

/-- Spec-side chunk: either a run of same-kind list items rendered into
one tagged container, or a single non-list block. -/
inductive AssemblerChunk where
  | run (tag : String) (items : List ProcessedBlock)
  | single (b : ProcessedBlock)

/-- The list-container tag a block's kind calls for, if it is a list item. -/
def chunkTagOf (b : ProcessedBlock) : Option String :=
  if b.type = "bulleted_list_item" then some "ul"
  else if b.type = "numbered_list_item" then some "ol"
  else none

/-- Modelled from the spec (§4.5): scan left to right; on a list item,
consume the entire maximal run of consecutive same-kind items into one
tagged run chunk; emit every other block as its own single chunk. -/
def chunksOf : List ProcessedBlock → List AssemblerChunk
  | [] => []
  | b :: rest =>
    if b.type = "bulleted_list_item" then
      let s := listRunSplit "bulleted_list_item" (b :: rest)
      .run "ul" s.1 :: chunksOf s.2
    else if b.type = "numbered_list_item" then
      let s := listRunSplit "numbered_list_item" (b :: rest)
      .run "ol" s.1 :: chunksOf s.2
    else .single b :: chunksOf rest
termination_by l => l.length
decreasing_by
  all_goals simp_wf
  · simpa [listRunSplit, *] using
      Nat.lt_succ_of_le (listRunSplit_snd_length "bulleted_list_item" rest)
  · simpa [listRunSplit, *] using
      Nat.lt_succ_of_le (listRunSplit_snd_length "numbered_list_item" rest)

/-- The blocks a chunk carries. -/
def chunkItems : AssemblerChunk → List ProcessedBlock
  | .run _ items => items
  | .single b => [b]

/-- Rendering of one chunk. -/
def renderChunk : AssemblerChunk → String
  | .run tag items => processListItems items tag
  | .single b => b.html

/-- The tag of a leading run chunk, if any. -/
def chunkHeadTag : List AssemblerChunk → Option String
  | .run tag _ :: _ => some tag
  | _ => none

/-- Sanity of a chunk list: run chunks are nonempty, uniform in kind,
maximal (the next chunk is not a run of the same tag), and single chunks
hold non-list blocks. -/
def chunksSane : List AssemblerChunk → Prop
  | [] => True
  | .single b :: rest => chunkTagOf b = none ∧ chunksSane rest
  | .run tag items :: rest =>
      items ≠ [] ∧ (∀ i ∈ items, chunkTagOf i = some tag) ∧
      chunkHeadTag rest ≠ some tag ∧ chunksSane rest

/-- A standalone bulleted-list processed block, as the renderer produces
for a plain-text item. -/
def pbBullet (c : String) : ProcessedBlock :=
  .mk "b" "bulleted_list_item" (some c) none ("<ul><li>" ++ c ++ "</li></ul>")

/-- A standalone paragraph processed block. -/
def pbPara (c : String) : ProcessedBlock :=
  .mk "p" "paragraph" (some c) none ("<p>" ++ c ++ "</p>")

/-- The assembler's scan agrees with the spec-side chunking. -/
theorem go_eq_chunks :
    ∀ blocks, generateCompleteHtmlGo blocks = (chunksOf blocks).map renderChunk := by
  intro blocks
  induction blocks using generateCompleteHtmlGo.induct with
  | case1 => simp [generateCompleteHtmlGo, chunksOf]
  | case2 b rest h s ih =>
    simp only [generateCompleteHtmlGo, chunksOf, if_pos h, List.map_cons, renderChunk]
    exact congrArg _ ih
  | case3 b rest h1 h2 s ih =>
    simp only [generateCompleteHtmlGo, chunksOf, if_neg h1, if_pos h2, List.map_cons,
      renderChunk]
    exact congrArg _ ih
  | case4 b rest h1 h2 ih =>
    simp only [generateCompleteHtmlGo, chunksOf, if_neg h1, if_neg h2, List.map_cons,
      renderChunk]
    exact congrArg _ ih

/-- Chunking reads the input back in order: document order is preserved. -/
theorem chunks_flatten :
    ∀ blocks, ((chunksOf blocks).map chunkItems).flatten = blocks := by
  intro blocks
  induction blocks using chunksOf.induct with
  | case1 => simp [chunksOf]
  | case2 b rest h s ih =>
    simp only [chunksOf, if_pos h, List.map_cons, chunkItems, List.flatten_cons]
    rw [ih]
    exact listRunSplit_append _ _
  | case3 b rest h1 h2 s ih =>
    simp only [chunksOf, if_neg h1, if_pos h2, List.map_cons, chunkItems,
      List.flatten_cons]
    rw [ih]
    exact listRunSplit_append _ _
  | case4 b rest h1 h2 ih =>
    simp only [chunksOf, if_neg h1, if_neg h2, List.map_cons, chunkItems,
      List.flatten_cons]
    simp [ih]

/-- A chunk list built from a remainder that does not start with kind `t`
cannot start with the corresponding run tag. -/
theorem chunkHeadTag_ne (t other : String) (l : List ProcessedBlock)
    (hne : ∀ b' rest', l = b' :: rest' → b'.type ≠ t)
    (hother : t = "bulleted_list_item" ∧ other = "ul" ∨
      t = "numbered_list_item" ∧ other = "ol") :
    chunkHeadTag (chunksOf l) ≠ some other := by
  cases l with
  | nil => simp [chunksOf, chunkHeadTag]
  | cons b' r' =>
    have hb' : b'.type ≠ t := hne b' r' rfl
    rcases hother with ⟨rfl, rfl⟩ | ⟨rfl, rfl⟩
    · by_cases hn : b'.type = "numbered_list_item"
      · simp [chunksOf, hb', hn, chunkHeadTag]
      · simp [chunksOf, hb', hn, chunkHeadTag]
    · by_cases hn : b'.type = "bulleted_list_item"
      · simp [chunksOf, hn, chunkHeadTag]
      · simp [chunksOf, hb', hn, chunkHeadTag]

/-- The produced chunks are sane: nonempty uniform maximal runs, and
non-list singles. -/
theorem chunks_sane : ∀ blocks, chunksSane (chunksOf blocks) := by
  intro blocks
  induction blocks using chunksOf.induct with
  | case1 => simp [chunksOf, chunksSane]
  | case2 b rest h s ih =>
    simp only [chunksOf, if_pos h, chunksSane]
    refine ⟨by simp [listRunSplit, h], ?_, ?_, ih⟩
    · intro i hi
      have := listRunSplit_fst_types "bulleted_list_item" (b :: rest) i hi
      simp [chunkTagOf, this]
    · exact chunkHeadTag_ne "bulleted_list_item" "ul" _
        (listRunSplit_snd_head _ _) (Or.inl ⟨rfl, rfl⟩)
  | case3 b rest h1 h2 s ih =>
    simp only [chunksOf, if_neg h1, if_pos h2, chunksSane]
    refine ⟨by simp [listRunSplit, h2], ?_, ?_, ih⟩
    · intro i hi
      have := listRunSplit_fst_types "numbered_list_item" (b :: rest) i hi
      simp [chunkTagOf, this]
    · exact chunkHeadTag_ne "numbered_list_item" "ol" _
        (listRunSplit_snd_head _ _) (Or.inr ⟨rfl, rfl⟩)
  | case4 b rest h1 h2 ih =>
    simp only [chunksOf, if_neg h1, if_neg h2, chunksSane]
    exact ⟨by simp [chunkTagOf, h1, h2], ih⟩

/-- C3.  The document assembler emits blocks in input order, merging each
maximal run of consecutive same-kind list items into a single list
container and emitting every non-list block as its own fragment in place:
its scan equals rendering the spec-side maximal-run chunking, the chunking
partitions the input in order, runs are nonempty/uniform/maximal, and the
sequence [bullet a, bullet b, paragraph c, bullet d] yields one ul with a
and b, the paragraph, then a separate ul with d. -/
theorem assembler_merges_maximal_runs :
    (∀ blocks, generateCompleteHtmlGo blocks = (chunksOf blocks).map renderChunk) ∧
    (∀ blocks, ((chunksOf blocks).map chunkItems).flatten = blocks) ∧
    (∀ blocks, chunksSane (chunksOf blocks)) ∧
    generateCompleteHtml [pbBullet "a", pbBullet "b", pbPara "c", pbBullet "d"] =
      "<ul><li>a</li><li>b</li></ul>\n<p>c</p>\n<ul><li>d</li></ul>" := by
  refine ⟨go_eq_chunks, chunks_flatten, chunks_sane, ?_⟩
  simp [generateCompleteHtml, generateCompleteHtmlGo, listRunSplit, pbBullet, pbPara,
    processListItems, listItemsJoin, listItemContent, ProcessedBlock.type,
    ProcessedBlock.html, String.intercalate, String.intercalate.go]

/-- Folding string concatenation collects the data lists. -/
theorem foldl_append_data (l : List String) :
    ∀ acc : String,
      (l.foldl (fun r s => r ++ s) acc).data = acc.data ++ (l.map String.data).flatten := by
  induction l with
  | nil => intro acc; simp
  | cons x xs ih => intro acc; simp [ih, String.data_append]

/-- `String.join` concatenates the character data of its pieces. -/
theorem stringJoin_data (l : List String) :
    (String.join l).data = (l.map String.data).flatten := by
  simpa [String.join] using foldl_append_data l ""

/-- Each of the sixteen digit values yields a lowercase hex character. -/
theorem hexDigitChar_mem (n : Nat) (h : n < 16) :
    hexDigitChar n ∈ ("0123456789abcdef").toList := by
  interval_cases n <;> decide

/-- C4.  The signature verifier returns true exactly when the presented
signature equals "sha256=" followed by the lowercase hex digest of the
HMAC-SHA-256 of the body keyed by the secret; it is a total function (no
throw on malformed input) and every digest character is a lowercase hex
digit. -/
theorem validateWebhookSignature_spec :
    (∀ (hmacSha256 : List Nat → List Nat → List Nat) (body sig secret : String),
      validateWebhookSignature hmacSha256 body sig secret = true ↔
        sig = "sha256=" ++
          bytesToHex (hmacSha256 (utf8Bytes secret) (utf8Bytes body))) ∧
    (∀ bs : List Nat, (∀ b ∈ bs, b < 256) →
      ∀ c ∈ (bytesToHex bs).toList, c ∈ ("0123456789abcdef").toList) := by
  constructor
  · intro hmacSha256 body sig secret
    simp only [validateWebhookSignature, beq_iff_eq]
    exact eq_comm
  · intro bs hbs c hc
    have hdata : (bytesToHex bs).toList = ((bs.map byteToHex).map String.data).flatten := by
      rw [show (bytesToHex bs).toList = (bytesToHex bs).data from rfl]
      simp [bytesToHex, stringJoin_data]
    rw [hdata] at hc
    obtain ⟨l, hl, hcl⟩ := List.mem_flatten.mp hc
    obtain ⟨s, hs, rfl⟩ := List.mem_map.mp hl
    obtain ⟨b, hb, rfl⟩ := List.mem_map.mp hs
    have hdb : (byteToHex b).data = [hexDigitChar (b / 16), hexDigitChar (b % 16)] := rfl
    rw [hdb] at hcl
    have hblt := hbs b hb
    simp only [List.mem_cons, List.not_mem_nil, or_false] at hcl
    rcases hcl with rfl | rfl
    · exact hexDigitChar_mem _ (by omega)
    · exact hexDigitChar_mem _ (Nat.mod_lt _ (by norm_num))

/-- C4 witness: the digest of the byte list [0, 171] is "00ab", whose
character 'a' is a lowercase hex digit. -/
theorem validateWebhookSignature_spec_witness :
    ('a') ∈ ("0123456789abcdef").toList :=
  validateWebhookSignature_spec.2 [0, 171] (by decide) 'a' (by decide)

/-- Modelled from the spec (§3, §4.4): style wrappers composed in the
fixed nesting order — code innermost, then bold, italic, strikethrough,
underline, with the hyperlink anchor outermost. -/
def specStyledRun (item : RichTextItem) : String :=
  let base := match item.text with
    | some t => t.content
    | none => ""
  let a := item.annotations.getD ({} : Annotations)
  let w1 := if a.code then "<code>" ++ base ++ "</code>" else base
  let w2 := if a.bold then "<strong>" ++ w1 ++ "</strong>" else w1
  let w3 := if a.italic then "<em>" ++ w2 ++ "</em>" else w2
  let w4 := if a.strikethrough then "<s>" ++ w3 ++ "</s>" else w3
  let w5 := if a.underline then "<u>" ++ w4 ++ "</u>" else w4
  match item.href with
  | some h => if h = "" then w5 else "<a href=\"" ++ h ++ "\">" ++ w5 ++ "</a>"
  | none => w5

/-- Override a run's unrecognized-flag list, keeping everything else. -/
def withExtraFlags (item : RichTextItem) (a : Annotations)
    (e : List (String × Bool)) : RichTextItem :=
  { item with annotations := some { a with extra := e } }

/-- A bold+italic text run with content "x". -/
def boldItalicX : RichTextItem :=
  { type := "text", text := some ⟨"x"⟩,
    annotations := some { bold := true, italic := true } }

/-- A code+underline text run with content "y". -/
def codeUnderlineY : RichTextItem :=
  { type := "text", text := some ⟨"y"⟩,
    annotations := some { underline := true, code := true } }

/-- C5.  A text run renders with the wrappers nested in the fixed order
code innermost, then bold, italic, strikethrough, underline, anchor
outermost; unrecognized style flags never influence the output; and a
bold+italic run renders italic-outermost. -/
theorem richText_style_nesting :
    (∀ item : RichTextItem, item.type = "text" →
      richTextToHtml [item] = specStyledRun item) ∧
    (∀ (item : RichTextItem) (a : Annotations) (e e' : List (String × Bool)),
      richTextToHtml [withExtraFlags item a e] =
        richTextToHtml [withExtraFlags item a e']) ∧
    richTextToHtml [boldItalicX] = "<em><strong>x</strong></em>" := by
  refine ⟨?_, ?_, by decide⟩
  · intro item h
    simp [richTextToHtml, specStyledRun, h, String.join]
  · intro item a e e'
    simp [richTextToHtml, withExtraFlags]

/-- C5 witness: a code+underline run agrees with the spec-side
composition. -/
theorem richText_style_nesting_witness :
    richTextToHtml [codeUnderlineY] = specStyledRun codeUnderlineY :=
  richText_style_nesting.1 _ rfl

mutual

def pbDepth : ProcessedBlock → Nat
  | .mk _ _ _ ch _ =>
    match ch with
    | some l => 1 + pbDepthList l
    | none => 0

def pbDepthList : List ProcessedBlock → Nat
  | [] => 0
  | b :: r => max (pbDepth b) (pbDepthList r)

end

theorem pbDepthList_le (l : List ProcessedBlock) (k : Nat)
    (h : ∀ x ∈ l, pbDepth x ≤ k) : pbDepthList l ≤ k := by
  induction l with
  | nil => simp [pbDepthList]
  | cons b r ih =>
    simp only [pbDepthList, Nat.max_le]
    exact ⟨h b (by simp), ih (fun x hx => h x (by simp [hx]))⟩

theorem processBlocks_depth_bound (fetch : String → Except Unit (List (List RawBlock))) :
    ∀ blocks cur maxD, ∀ pb ∈ processBlocksRecursively fetch blocks cur maxD,
      pbDepth pb ≤ maxD - cur := by
  intro blocks cur maxD
  induction blocks, cur, maxD using processBlocksRecursively.induct fetch with
  | case1 cur maxD => simp [processBlocksRecursively]
  | case2 cur maxD block rest h ih =>
    have he : processBlocksRecursively fetch (block :: rest) cur maxD =
        processBlocksRecursively fetch rest cur maxD := by
      simp only [processBlocksRecursively]
      rw [if_pos h]
    rw [he]
    exact ih
  | case3 cur maxD block rest h1 h2 ih =>
    have he : processBlocksRecursively fetch (block :: rest) cur maxD =
        processBlocksRecursively fetch rest cur maxD := by
      simp only [processBlocksRecursively]
      rw [if_neg h1, if_pos h2]
    rw [he]
    exact ih
  | case4 cur maxD block rest h1 h2 ihc ih =>
    intro pb hpb
    simp only [processBlocksRecursively] at hpb
    rw [if_neg h1, if_neg h2] at hpb
    rw [List.mem_cons] at hpb
    rcases hpb with rfl | hpb
    · split
      · simp [pbDepth]
      · split
        · simp [pbDepth]
        · split
          · simp [pbDepth]
          · split
            · split
              · split
                · rename_i pages hf
                  have hlt : cur < maxD := by assumption
                  simp only [pbDepth]
                  have hb := pbDepthList_le _ (maxD - (cur + 1)) (ihc hlt pages)
                  omega
                · simp [pbDepth]
              · simp [pbDepth]
            · simp [pbDepth]
    · exact ih pb hpb

theorem processBlocks_cap_children_none (fetch : String → Except Unit (List (List RawBlock))) :
    ∀ blocks cur maxD, maxD ≤ cur →
      ∀ pb ∈ processBlocksRecursively fetch blocks cur maxD, pb.children = none := by
  intro blocks cur maxD
  induction blocks, cur, maxD using processBlocksRecursively.induct fetch with
  | case1 cur maxD => simp [processBlocksRecursively]
  | case2 cur maxD block rest h ih =>
    intro hcap
    have he : processBlocksRecursively fetch (block :: rest) cur maxD =
        processBlocksRecursively fetch rest cur maxD := by
      simp only [processBlocksRecursively]
      rw [if_pos h]
    rw [he]
    exact ih hcap
  | case3 cur maxD block rest h1 h2 ih =>
    intro hcap
    have he : processBlocksRecursively fetch (block :: rest) cur maxD =
        processBlocksRecursively fetch rest cur maxD := by
      simp only [processBlocksRecursively]
      rw [if_neg h1, if_pos h2]
    rw [he]
    exact ih hcap
  | case4 cur maxD block rest h1 h2 ihc ih =>
    intro hcap pb hpb
    simp only [processBlocksRecursively] at hpb
    rw [if_neg h1, if_neg h2] at hpb
    rw [List.mem_cons] at hpb
    rcases hpb with rfl | hpb
    · split
      · simp [ProcessedBlock.children]
      · split
        · simp [ProcessedBlock.children]
        · split
          · simp [ProcessedBlock.children]
          · split
            · have hlt : cur < maxD := by assumption
              omega
            · simp [ProcessedBlock.children]
    · exact ih hcap pb hpb

def chainBlock (i : String) (hc : Bool) : RawBlock :=
  { id := i, type := "bulleted_list_item", has_children := hc,
    rich_text := some [{ type := "text", text := some ⟨"x"⟩ }] }

def chainFetch : String → Except Unit (List (List RawBlock))
  | "d0" => .ok [[chainBlock "d1" true]]
  | "d1" => .ok [[chainBlock "d2" true]]
  | "d2" => .ok [[chainBlock "d3" true]]
  | "d3" => .ok [[chainBlock "d4" true]]
  | "d4" => .ok [[chainBlock "d5" true]]
  | "d5" => .ok [[chainBlock "d6" false]]
  | _ => .ok []

/-- C6.  Recursive block processing is total (it is a Lean function), the
depth cap works as claimed: at or beyond the cap every processed block has
absent children regardless of `has_children` (no error — the node is still
produced), below the cap the nesting of recorded children is bounded by
the remaining budget, and a list nested six levels deep processed with the
default cap of 4 renders exactly four levels of children. -/
theorem recursion_depth_cap :
    (∀ fetch blocks cur maxD, maxD ≤ cur →
      ∀ pb ∈ processBlocksRecursively fetch blocks cur maxD,
        pb.children = none) ∧
    (∀ (fetch : String → Except Unit (List (List RawBlock))) blocks cur maxD,
      ∀ pb ∈ processBlocksRecursively fetch blocks cur maxD,
        pbDepth pb ≤ maxD - cur) ∧
    (processBlocksRecursively chainFetch [chainBlock "d0" true] 0 4).map pbDepth
      = [4] := by
  refine ⟨processBlocks_cap_children_none, fun fetch => processBlocks_depth_bound fetch, ?_⟩
  simp [processBlocksRecursively, chainFetch, chainBlock, ALLOWED_BLOCK_TYPES,
    extractTextContent, generateBlockHtml, richTextToHtml, childrenHtmlJoin,
    String.join, pbDepth, pbDepthList]

/-- C6 witness: a node with `has_children` processed at the cap keeps its
children absent. -/
theorem recursion_depth_cap_witness :
    ((processBlocksRecursively chainFetch [chainBlock "d5" true] 4 4).headD
      default).children = none := by
  have hmem : ((processBlocksRecursively chainFetch [chainBlock "d5" true] 4 4).headD
      default) ∈ processBlocksRecursively chainFetch [chainBlock "d5" true] 4 4 := by
    simp [processBlocksRecursively, chainFetch, chainBlock, ALLOWED_BLOCK_TYPES,
      extractTextContent, generateBlockHtml, richTextToHtml, childrenHtmlJoin,
      String.join]
  exact recursion_depth_cap.1 chainFetch [chainBlock "d5" true] 4 4 (by decide) _ hmem

/-- A list item whose children mix the two list kinds. -/
def mixedItem : ProcessedBlock :=
  .mk "i" "bulleted_list_item" (some "t")
    (some [.mk "a" "bulleted_list_item" (some "c1") none "",
           .mk "b" "numbered_list_item" (some "c2") none ""]) ""

/-- C7 counterexample: for an item with a bulleted child followed by a
numbered child, the assembler emits both children inside one nested ul
chosen by the first child's kind — no ol container appears, so the
numbered run is not emitted as its own correctly-tagged container. -/
theorem nested_mixed_children_counterexample :
    processListItems [mixedItem] "ul" =
      "<ul><li>t<ul><li>c1</li><li>c2</li></ul></li></ul>" ∧
    strIncludes (processListItems [mixedItem] "ul") ("<ol>") = false := by
  have heq : processListItems [mixedItem] "ul" =
      "<ul><li>t<ul><li>c1</li><li>c2</li></ul></li></ul>" := by
    simp [processListItems, listItemsJoin, listItemContent, mixedItem, ProcessedBlock.type]
  refine ⟨heq, ?_⟩
  rw [heq]
  decide

/-- C7 (amended).  When the assembler recurses into a list item's
children, it wraps all children in a single nested list container whose
tag is chosen by the first child's kind alone; within a container every
item is emitted as one li in order.  Same-kind runs are not re-grouped at
nested levels. -/
theorem nested_children_single_container :
    (∀ (i t : String) (content : Option String) (html : String)
        (c : ProcessedBlock) (cs : List ProcessedBlock),
      listItemContent (ProcessedBlock.mk i t content (some (c :: cs)) html) =
        content.getD "" ++ processListItems (c :: cs)
          (if c.type = "bulleted_list_item" then "ul" else "ol")) ∧
    (∀ blocks listType, processListItems blocks listType =
      "<" ++ listType ++ ">" ++ listItemsJoin blocks ++ "</" ++ listType ++ ">") ∧
    (∀ item rest, listItemsJoin (item :: rest) =
      "<li>" ++ listItemContent item ++ "</li>" ++ listItemsJoin rest) := by
  refine ⟨?_, ?_, ?_⟩
  · intro i t content html c cs
    simp [listItemContent]
  · intro blocks listType
    simp [processListItems]
  · intro item rest
    simp [listItemsJoin]

mutual

/-- Rewrite the html field of every node of a processed tree, leaving all
other fields intact. -/
def mapHtml (f : String → String) : ProcessedBlock → ProcessedBlock
  | .mk i t c ch h => .mk i t c (mapHtmlChildren f ch) (f h)

def mapHtmlChildren (f : String → String) :
    Option (List ProcessedBlock) → Option (List ProcessedBlock)
  | none => none
  | some l => some (mapHtmlList f l)

def mapHtmlList (f : String → String) : List ProcessedBlock → List ProcessedBlock
  | [] => []
  | b :: r => mapHtml f b :: mapHtmlList f r

end

/-- Rewriting html fields does not change a node's kind. -/
theorem mapHtml_type (f : String → String) (b : ProcessedBlock) :
    (mapHtml f b).type = b.type := by
  cases b
  simp [mapHtml, ProcessedBlock.type]

/-- The assembler's list rendering never reads the html field: rewriting
every html field leaves its output unchanged. -/
theorem processListItems_mapHtml (f : String → String) :
    ∀ blocks lt, processListItems (mapHtmlList f blocks) lt = processListItems blocks lt :=
  processListItems.induct
    (fun blocks lt => processListItems (mapHtmlList f blocks) lt = processListItems blocks lt)
    (fun blocks => listItemsJoin (mapHtmlList f blocks) = listItemsJoin blocks)
    (fun b => listItemContent (mapHtml f b) = listItemContent b)
    (by intro blocks lt h2
        simp [processListItems, h2])
    (by simp [mapHtmlList, listItemsJoin])
    (by intro item rest h3 h2
        simp [mapHtmlList, listItemsJoin, h3, h2])
    (by intro i t c h cpb cs h1
        simp only [mapHtml, mapHtmlChildren, mapHtmlList, listItemContent]
        rw [mapHtml_type]
        split <;> rename_i hc
        · rw [dif_pos hc] at h1
          simp only [mapHtmlList] at h1
          rw [h1]
        · rw [dif_neg hc] at h1
          simp only [mapHtmlList] at h1
          rw [h1])
    (by intro i t c h x hx
        match x with
        | none => simp [mapHtml, mapHtmlChildren, listItemContent]
        | some [] => simp [mapHtml, mapHtmlChildren, mapHtmlList, listItemContent]
        | some (c1 :: cs1) => exact absurd rfl (fun he => hx c1 cs1 he) )

/-- A child fetch that always succeeds with no pages. -/
def emptyFetch : String → Except Unit (List (List RawBlock)) := fun _ => .ok []

/-- A childless bulleted list item whose text is bold "x". -/
def boldBulletRaw : RawBlock :=
  { id := "b1", type := "bulleted_list_item",
    rich_text := some [{ type := "text", text := some ⟨"x"⟩,
                         annotations := some { bold := true } }] }

/-- Block processing is a homomorphism for list append: each block's
record depends only on that block and the fetch environment. -/
theorem processBlocksRecursively_append (fetch : String → Except Unit (List (List RawBlock)))
    (cur maxD : Nat) :
    ∀ xs ys, processBlocksRecursively fetch (xs ++ ys) cur maxD =
      processBlocksRecursively fetch xs cur maxD ++
        processBlocksRecursively fetch ys cur maxD := by
  intro xs ys
  induction xs with
  | nil => simp [processBlocksRecursively]
  | cons b xs' ih =>
    rw [List.cons_append]
    by_cases h1 : (b.id = "" ∨ b.type = "")
    · have hl : processBlocksRecursively fetch (b :: (xs' ++ ys)) cur maxD =
          processBlocksRecursively fetch (xs' ++ ys) cur maxD := by
        simp only [processBlocksRecursively]
        rw [if_pos h1]
      have hr : processBlocksRecursively fetch (b :: xs') cur maxD =
          processBlocksRecursively fetch xs' cur maxD := by
        simp only [processBlocksRecursively]
        rw [if_pos h1]
      rw [hl, hr, ih]
    · by_cases h2 : (!ALLOWED_BLOCK_TYPES.contains b.type) = true
      · have hl : processBlocksRecursively fetch (b :: (xs' ++ ys)) cur maxD =
            processBlocksRecursively fetch (xs' ++ ys) cur maxD := by
          simp only [processBlocksRecursively]
          rw [if_neg h1, if_pos h2]
        have hr : processBlocksRecursively fetch (b :: xs') cur maxD =
            processBlocksRecursively fetch xs' cur maxD := by
          simp only [processBlocksRecursively]
          rw [if_neg h1, if_pos h2]
        rw [hl, hr, ih]
      · conv =>
          lhs
          rw [processBlocksRecursively]
        conv =>
          rhs
          lhs
          rw [processBlocksRecursively]
        rw [if_neg h1, if_neg h2, if_neg h1, if_neg h2, ih]
        simp

/-- The per-block renderer never reads `has_children`. -/
theorem generateBlockHtml_has_children (b : RawBlock) (hc : Bool)
    (ch : Option (List ProcessedBlock)) :
    generateBlockHtml { b with has_children := hc } ch = generateBlockHtml b ch := by
  cases b
  rfl

/-- Media resolution never reads `has_children`. -/
theorem extractMediaUrl_has_children (b : RawBlock) (hc : Bool) :
    extractMediaUrl { b with has_children := hc } = extractMediaUrl b := by
  cases b
  rfl

/-- A node whose child fetch fails is processed exactly like the same
node with `has_children` cleared. -/
theorem process_err_childless (fetch : String → Except Unit (List (List RawBlock)))
    (cur maxD : Nat) (b : RawBlock) (hf : fetch b.id = .error ()) :
    processBlocksRecursively fetch [b] cur maxD =
      processBlocksRecursively fetch [{ b with has_children := false }] cur maxD := by
  by_cases h1 : (b.id = "" ∨ b.type = "")
  · simp [processBlocksRecursively, h1]
  · by_cases h2 : (!ALLOWED_BLOCK_TYPES.contains b.type) = true
    · have h2' : b.type ∉ ALLOWED_BLOCK_TYPES := by simpa using h2
      simp [processBlocksRecursively, h1, h2']
    · have hmem : b.type ∈ ALLOWED_BLOCK_TYPES := by simpa using h2
      have hid : ¬(b.id = "") := fun hh => h1 (Or.inl hh)
      by_cases ht1 : (b.type = "heading_1" ∨ b.type = "heading_2" ∨
          b.type = "heading_3" ∨ b.type = "paragraph" ∨ b.type = "quote" ∨
          b.type = "code")
      · simp [processBlocksRecursively, h1, hid, hmem, ht1, generateBlockHtml_has_children]
      · by_cases ht2 : (b.type = "image" ∨ b.type = "video")
        · simp [processBlocksRecursively, h1, hid, hmem, ht1, ht2,
            generateBlockHtml_has_children, extractMediaUrl_has_children]
        · by_cases ht3 : b.type = "divider"
          · simp [processBlocksRecursively, h1, hid, hmem, ht1, ht2, ht3,
              generateBlockHtml_has_children, generateBlockHtml]
          · by_cases hlt : cur < maxD
            · by_cases hhc : b.has_children = true
              · simp [processBlocksRecursively, h1, hid, hmem, ht1, ht2, ht3, hlt, hhc, hf,
                  generateBlockHtml_has_children]
              · simp [processBlocksRecursively, h1, hid, hmem, ht1, ht2, ht3, hlt, hhc,
                  generateBlockHtml_has_children]
            · simp [processBlocksRecursively, h1, hid, hmem, ht1, ht2, ht3, hlt,
                generateBlockHtml_has_children]

/-- A node whose child fetch fails records absent children. -/
theorem process_err_children_none (fetch : String → Except Unit (List (List RawBlock)))
    (cur maxD : Nat) (b : RawBlock) (hf : fetch b.id = .error ()) :
    ∀ pb ∈ processBlocksRecursively fetch [b] cur maxD, pb.children = none := by
  intro pb hpb
  by_cases h1 : (b.id = "" ∨ b.type = "")
  · simp [processBlocksRecursively, h1] at hpb
  · by_cases h2 : (!ALLOWED_BLOCK_TYPES.contains b.type) = true
    · have h2' : b.type ∉ ALLOWED_BLOCK_TYPES := by simpa using h2
      simp [processBlocksRecursively, h1, h2'] at hpb
    · simp only [processBlocksRecursively] at hpb
      rw [if_neg h1, if_neg h2] at hpb
      simp only [List.mem_singleton] at hpb
      subst hpb
      rw [hf]
      repeat' split
      all_goals try simp [ProcessedBlock.children]
      all_goals rename_i heq
      all_goals cases heq

/-- C8.  A child-fetch failure is caught at the failing node alone: the
surrounding blocks process exactly as they would by themselves (append
homomorphism), the failing node is processed as if it had no children —
in particular it is still rendered — and its children are recorded
absent; nothing propagates. -/
theorem child_fetch_failure_local :
    ∀ (fetch : String → Except Unit (List (List RawBlock))) cur maxD xs
      (b : RawBlock) ys,
      fetch b.id = .error () →
      (processBlocksRecursively fetch (xs ++ b :: ys) cur maxD =
        processBlocksRecursively fetch xs cur maxD ++
          processBlocksRecursively fetch [b] cur maxD ++
          processBlocksRecursively fetch ys cur maxD) ∧
      (processBlocksRecursively fetch [b] cur maxD =
        processBlocksRecursively fetch [{ b with has_children := false }] cur maxD) ∧
      (∀ pb ∈ processBlocksRecursively fetch [b] cur maxD,
        pb.children = none) := by
  intro fetch cur maxD xs b ys hf
  refine ⟨?_, process_err_childless fetch cur maxD b hf,
    process_err_children_none fetch cur maxD b hf⟩
  have h1 := processBlocksRecursively_append fetch cur maxD xs (b :: ys)
  have h2 := processBlocksRecursively_append fetch cur maxD [b] ys
  rw [h1, show (b :: ys) = [b] ++ ys from rfl, h2, List.append_assoc]

/-- A fetch environment that fails exactly for block id "e1". -/
def errFetch : String → Except Unit (List (List RawBlock))
  | "e1" => .error ()
  | _ => .ok []

/-- A list item with children whose child fetch will fail. -/
def errBullet : RawBlock :=
  { id := "e1", type := "bulleted_list_item", has_children := true,
    rich_text := some [{ type := "text", text := some ⟨"z"⟩ }] }

/-- C8 witness: the failing node processes exactly like its childless
twin. -/
theorem child_fetch_failure_local_witness :
    processBlocksRecursively errFetch [errBullet] 0 4 =
      processBlocksRecursively errFetch
        [{ errBullet with has_children := false }] 0 4 :=
  (child_fetch_failure_local errFetch 0 4 [] errBullet [] rfl).2.1

/-- C9.  The document assembler emits a list item's extracted plain-text
content, not its per-block html: rewriting every html field leaves the
assembled list output unchanged, while at the concrete bold item the
per-block html carries the strong markup and the assembled document drops
it. -/
theorem assembler_uses_plain_content :
    (∀ (f : String → String) blocks lt,
      processListItems (mapHtmlList f blocks) lt = processListItems blocks lt) ∧
    ((processBlocksRecursively emptyFetch [boldBulletRaw] 0 4).headD default).html =
      "<ul><li><strong>x</strong></li></ul>" ∧
    generateCompleteHtml
        [(processBlocksRecursively emptyFetch [boldBulletRaw] 0 4).headD default] =
      "<ul><li>x</li></ul>" := by
  refine ⟨fun f => processListItems_mapHtml f, ?_, ?_⟩
  · simp [processBlocksRecursively, emptyFetch, boldBulletRaw, ALLOWED_BLOCK_TYPES,
      extractTextContent, generateBlockHtml, richTextToHtml, String.join,
      ProcessedBlock.html]
  · simp [processBlocksRecursively, emptyFetch, boldBulletRaw, ALLOWED_BLOCK_TYPES,
      extractTextContent, generateBlockHtml, richTextToHtml, String.join,
      generateCompleteHtml, generateCompleteHtmlGo, listRunSplit, processListItems,
      listItemsJoin, listItemContent, ProcessedBlock.type, ProcessedBlock.html,
      String.intercalate, String.intercalate.go]

/-- C10.  For a POST to an existing tenant with no configured mapping, the
handler answers 200 success=true with the no-mapping message before ever
reading the signature header: the response is identical for any value (or
absence) of the header, because the mapping check precedes signature
verification. -/
theorem no_mapping_short_circuits_signature :
    ∀ (api : NotionApi) (users : String → Option UserData)
      (webhookKeys : List String)
      (hmacSha256 : List Nat → List Nat → List Nat) (req : WorkerRequest)
      (uid : String) (ud : UserData),
      req.method = "POST" →
      (splitPath req.pathname).filter (fun p => p ≠ "") = ["notion-webhook", uid] →
      users uid = some ud → ud.notionMapping = none →
      (handleFetch api users webhookKeys hmacSha256 req =
        jsonMsg 200 ("No notion mapping configured - ignoring webhook")) ∧
      (∀ sig, handleFetch api users webhookKeys hmacSha256
          { req with signatureHeader := sig } =
        handleFetch api users webhookKeys hmacSha256 req) := by
  intro api users keys hmac req uid ud hm hp hu hmap
  simp only [ne_eq, decide_not] at hp
  constructor
  · simp [handleFetch, hm, hp, hu, hmap]
  · intro sig
    simp [handleFetch, hm, hp, hu, hmap]

/-- A Notion API stub that fails every call. -/
def apiStub : NotionApi :=
  ⟨fun _ => .error (), fun _ _ => .error (), fun _ => .error ()⟩

/-- A tenant record with no configured mapping. -/
def userNoMapping : UserData :=
  { verificationSecret := "s", notionToken := "t" }

/-- A users store holding only tenant "u1". -/
def usersStub : String → Option UserData :=
  fun u => if u = "u1" then some userNoMapping else none

/-- A POST request to tenant "u1" with no signature header. -/
def reqNoSig : WorkerRequest :=
  { method := "POST", pathname := "/notion-webhook/u1" }

/-- C10 witness: the concrete no-mapping request gets the 200 no-op even
without any signature header. -/
theorem no_mapping_short_circuits_signature_witness :
    handleFetch apiStub usersStub [] (fun _ _ => []) reqNoSig =
      jsonMsg 200 ("No notion mapping configured - ignoring webhook") :=
  (no_mapping_short_circuits_signature apiStub usersStub [] (fun _ _ => [])
    reqNoSig "u1" userNoMapping rfl (by decide) rfl rfl).1
